import Mathlib

/-!
Shallow embedding of `archiver.py` (matrix-org/log_archiver).

Strings are modelled as `List Char`.  Python's `datetime.date` is modelled by
`PyDate` together with an explicit validity check (`date(y, m, d)` raises
`ValueError` exactly when the triple is not a real calendar date in years
1..9999).  `date` subtraction in whole days is modelled through a
day-numbering function (`toOrdinal`); only differences of ordinals are ever
used, so the choice of epoch is irrelevant.  Fallible Python code is embedded
in `Except String`.
-/

namespace LogArchiver

/-! ## Definitions: the embedding of `archiver.py` -/

/-- `[0-9]` character class of the regex. -/
def isDigitCh (c : Char) : Bool := decide ('0' ≤ c) && decide (c ≤ '9')

/-- Numeric value of a decimal digit character. -/
def digitVal (c : Char) : Nat := c.toNat - 48

/-- Python `str.strip` whitespace set (the characters `str.strip` removes). -/
def isSpaceCh (c : Char) : Bool :=
  c = ' ' || c = '\t' || c = '\n' || c = '\r' || c = '\x0b' || c = '\x0c'

/-- Python `f.strip()`: drop leading and trailing whitespace. -/
def pyStrip (s : List Char) : List Char :=
  ((s.dropWhile isSpaceCh).reverse.dropWhile isSpaceCh).reverse

/-- Python `os.path.basename`: everything after the last `/`. -/
def basename (s : List Char) : List Char :=
  (s.reverse.takeWhile (fun c => c ≠ '/')).reverse

/-- Python `s.endswith(suf)`. -/
def endsWith (suf s : List Char) : Bool := List.isSuffixOf suf s

/-- Python `pat in s` (substring containment, `in` operator on `str`). -/
def containsSub (pat : List Char) : List Char → Bool
  | [] => pat.isEmpty
  | c :: cs => pat.isPrefixOf (c :: cs) || containsSub pat cs

/-- Worker for `replaceAll`, structurally recursive on a fuel bound (the
remaining input length) so that concrete runs reduce in the kernel. -/
def replaceAllAux (pat rep : List Char) : Nat → List Char → List Char
  | _, [] => []
  | 0, s => s
  | fuel + 1, c :: cs =>
    if pat.isPrefixOf (c :: cs) then
      rep ++ replaceAllAux pat rep fuel (List.drop (pat.length - 1) cs)
    else
      c :: replaceAllAux pat rep fuel cs

/-- Python `s.replace(pat, rep)`: replace every non-overlapping occurrence,
scanning left to right. -/
def replaceAll (pat rep s : List Char) : List Char :=
  replaceAllAux pat rep s.length s

def insertOrd (le : α → α → Bool) (x : α) : List α → List α
  | [] => [x]
  | y :: ys => if le x y then x :: y :: ys else y :: insertOrd le x ys

def sortOrd (le : α → α → Bool) : List α → List α
  | [] => []
  | x :: xs => insertOrd le x (sortOrd le xs)

structure PyDate where
  year : Nat
  month : Nat
  day : Nat
deriving DecidableEq, Repr

def isLeapYear (y : Nat) : Bool :=
  y % 4 = 0 && (y % 100 ≠ 0 || y % 400 = 0)

def daysInMonth (y m : Nat) : Nat :=
  if m = 1 then 31 else if m = 2 then (if isLeapYear y then 29 else 28)
  else if m = 3 then 31 else if m = 4 then 30 else if m = 5 then 31
  else if m = 6 then 30 else if m = 7 then 31 else if m = 8 then 31
  else if m = 9 then 30 else if m = 10 then 31 else if m = 11 then 30
  else if m = 12 then 31 else 0

def validDate (y m d : Nat) : Bool :=
  1 ≤ y && y ≤ 9999 && 1 ≤ m && m ≤ 12 && 1 ≤ d && d ≤ daysInMonth y m

/-- `datetime.date(y, m, d)` — raises `ValueError` on an invalid calendar
date, embedded as `Except.error`. -/
def mkDate (y m d : Nat) : Except String PyDate :=
  if validDate y m d then .ok ⟨y, m, d⟩ else .error "ValueError"

/-- Day number of a valid date (standard civil-calendar day count, used to
model `date` subtraction: `(a - b).days = toOrdinal a - toOrdinal b`).  The
epoch offset is irrelevant because only differences are consumed. -/
def toOrdinal (dt : PyDate) : Nat :=
  let yi := dt.year - (if dt.month ≤ 2 then 1 else 0)
  let era := yi / 400
  let yoe := yi - era * 400
  let mp := (dt.month + 9) % 12
  let doy := (153 * mp + 2) / 5 + dt.day - 1
  let doe := yoe * 365 + yoe / 4 - yoe / 100 + doy
  era * 146097 + doe

/-- `(today - f_date).days` of Python `datetime`. -/
def dateDiffDays (today fd : PyDate) : Int :=
  (toOrdinal today : Int) - (toOrdinal fd : Int)

/-- Python `date` comparison key: dates compare chronologically, which for
valid dates (month, day two digits each) coincides with this packed number. -/
def dateKey (dt : PyDate) : Nat := dt.year * 10000 + dt.month * 100 + dt.day

/-- Python tuple comparison on `(date, filename)` pairs, as used by
`results.sort()` at line 60. -/
def pairLe (a b : PyDate × List Char) : Bool :=
  decide (dateKey a.1 < dateKey b.1 ∨ (dateKey a.1 = dateKey b.1 ∧ a.2 ≤ b.2))

/-- One anchored attempt of `DATE_REGEX` at the start of the list: literal
`2`, `0`, digit, digit, `-`, digit, digit, `-`, digit, digit.  Returns the
three captured groups as numbers (`int(m.group(i))`). -/
def matchHere : List Char → Option (Nat × Nat × Nat)
  | '2' :: '0' :: y3 :: y4 :: '-' :: m1 :: m2 :: '-' :: d1 :: d2 :: _ =>
    if isDigitCh y3 && isDigitCh y4 && isDigitCh m1 && isDigitCh m2 &&
        isDigitCh d1 && isDigitCh d2 then
      some (2000 + 10 * digitVal y3 + digitVal y4,
            10 * digitVal m1 + digitVal m2,
            10 * digitVal d1 + digitVal d2)
    else none
  | _ => none

/-- `DATE_REGEX.search(f)`: leftmost match — try each start position from the
left, first success wins. -/
def regexSearch : List Char → Option (Nat × Nat × Nat)
  | [] => none
  | c :: cs =>
    match matchHere (c :: cs) with
    | some t => some t
    | none => regexSearch cs

/-- The `for f in files` loop body of `filter_by_age` (lines 51-58): skip
files with no regex match, construct the date (`ValueError` propagates),
keep `(f_date, f)` when the comparator accepts `today - f_date`. -/
def collectDated (today : PyDate) (cmp : Int → Bool) :
    List (List Char) → Except String (List (PyDate × List Char))
  | [] => .ok []
  | f :: fs =>
    match regexSearch f with
    | none => collectDated today cmp fs
    | some (y, m, d) =>
      match mkDate y m d with
      | .error e => .error e
      | .ok fd =>
        match collectDated today cmp fs with
        | .error e => .error e
        | .ok rest =>
          .ok (if cmp (dateDiffDays today fd) then (fd, f) :: rest else rest)

/-- `filter_by_age(files, comparator)` with `today` made an explicit input
(line 49 reads the clock): collect the dated pairs, `results.sort()`,
return the filenames. -/
def filter_by_age (files : List (List Char)) (today : PyDate)
    (cmp : Int → Bool) : Except String (List (List Char)) :=
  (collectDated today cmp files).map (fun rs => (sortOrd pairLe rs).map Prod.snd)

/-- The date-extraction step of `filter_by_age` taken alone (lines 52-55):
`DATE_REGEX.search` then `date(...)` on the three groups.  This is the
`extract_date` contract of the spec. -/
def extract_date (f : List Char) : Except String (Option PyDate) :=
  match regexSearch f with
  | none => .ok none
  | some (y, m, d) => (mkDate y m d).map some

/-- The successfully extracted date, when there is one. -/
def extractDateOpt (f : List Char) : Option PyDate :=
  match regexSearch f with
  | none => none
  | some (y, m, d) => (mkDate y m d).toOption

/-- The field tuple of the `Service` namedtuple exactly as declared at
lines 32-35. -/
def serviceFields : List String :=
  ["name", "host", "account", "directory", "pattern", "days_to_keep_on_remote"]

/-- The keywords `__main__` passes when constructing `Service`
(lines 228-240). -/
def mainServiceKwargs : List String :=
  ["name", "host", "account", "directory", "pattern", "days_to_keep_on_remote",
   "retention_period_days"]

/-- Python semantics of calling a namedtuple constructor with keyword
arguments: a keyword that is not a declared field raises `TypeError`;
otherwise every declared field must be supplied. -/
def namedtupleKwCall (fields kwargs : List String) : Except String PUnit :=
  match kwargs.find? (fun k => !(fields.contains k)) with
  | some k => .error ("TypeError: unexpected keyword argument " ++ k)
  | none =>
    if fields.all (fun f => kwargs.contains f) then .ok PUnit.unit
    else .error "TypeError: missing argument"

/-- Service descriptor as `__main__` constructs it and `archive_service`
consumes it (fields per the constructor call at lines 228-240 and the
attribute reads at lines 85-118 and 186-195).  `retention_period_days` is
`none` when the config omits it (`serv_config.get(...)` returns `None`). -/
structure Service where
  name : List Char
  host : List Char
  account : List Char
  directory : List Char
  pattern : List Char
  days_to_keep_on_remote : Nat
  retention_period_days : Option Nat

/-- The flags of `Archiver.__init__` (lines 64-78). -/
structure Archiver where
  base_dir : List Char
  verbose : Bool
  dry_run : Bool
  remove : Bool
  use_ssh_agent : Bool

/-- Local filesystem state: the set of existing regular files and the set of
existing directories, each as absolute path strings. -/
structure LocalFS where
  files : List (List Char)
  dirs : List (List Char)
deriving DecidableEq

/-- `os.path.join(a, b)` for a non-empty relative/absolute `a` and a
relative `b`, the only shape the program produces. -/
def pjoin (a b : List Char) : List Char := a ++ '/' :: b

def gzExt : List Char := ".gz".toList

def dlExt : List Char := ".download".toList

def dateToken : List Char := "<DATE->".toList

def dateWildcard : List Char := "????-??-??".toList

/-- String `≤` as a Bool, for `files.sort()` at line 113. -/
def strLeB (a b : List Char) : Bool := decide (a ≤ b)

/-- Observable actions of one run, in program order.  Print-only actions are
kept as events too so that "warned", "printed intended action" and the
sequencing of rename before remote removal can all be stated. -/
inductive Ev
  | makedirs (dir : List Char)
  | warnNoDate (serviceName : List Char)
  | execFind (dir glob : List Char)
  | removePending (path : List Char)
  | warnExists (path : List Char)
  | printArchiving (host fileName localName : List Char)
  | download (remote pending : List Char)
  | renameFile (pending localName : List Char)
  | remoteRemove (path : List Char)
  | retentionPrint (path : List Char)
  | retentionRemove (path : List Char)
deriving DecidableEq

/-- Outcome oracle for one file's transfer steps (the remote and local I/O
of lines 165-174 may raise): the download may fail mid-stream, the rename
may fail, or both succeed. -/
inductive Tr
  | ok
  | failDownload
  | failRename
deriving DecidableEq

/-- The final local name derived at lines 126-128: base dir joined with the
remote basename, with `.gz` appended unless already present. -/
def localNameFor (base_dir file_name : List Char) : List Char :=
  let local0 := pjoin base_dir (basename file_name)
  if endsWith gzExt file_name then local0 else local0 ++ gzExt

/-- The transient download name derived at line 129. -/
def pendingNameFor (base_dir file_name : List Char) : List Char :=
  localNameFor base_dir file_name ++ dlExt

/-- The unconditional stale-pending sweep of lines 131-132: state part. -/
def sweep (base_dir file_name : List Char) (fs : LocalFS) : LocalFS :=
  if pendingNameFor base_dir file_name ∈ fs.files then
    { fs with files := fs.files.erase (pendingNameFor base_dir file_name) }
  else fs

/-- The unconditional stale-pending sweep of lines 131-132: recorded
action. -/
def sweepEvs (base_dir file_name : List Char) (fs : LocalFS) : List Ev :=
  if pendingNameFor base_dir file_name ∈ fs.files then
    [.removePending (pendingNameFor base_dir file_name)] else []

/-- The conditional progress print of lines 156-159. -/
def printEvs (A : Archiver) (s : Service) (file_name local_name : List Char) :
    List Ev :=
  if A.verbose || A.dry_run then [.printArchiving s.host file_name local_name]
  else []

/-- Body of the per-file loop (lines 125-179).  Returns the filesystem
state, the events in program order, and the propagating exception if any.
On a failed download or rename the (partial or complete) pending file is
left in place, as the code takes no cleanup action. -/
def processFile (A : Archiver) (s : Service) (base_dir : List Char)
    (tr : Tr) (fs : LocalFS) (file_name : List Char) :
    LocalFS × List Ev × Option String :=
  let local_name := localNameFor base_dir file_name
  let pending_name := pendingNameFor base_dir file_name
  let fs1 := sweep base_dir file_name fs
  let evs1 := sweepEvs base_dir file_name fs
  if local_name ∈ fs1.files then
    (fs1, evs1 ++ [.warnExists local_name], none)
  else
    let evs2 := printEvs A s file_name local_name
    if A.dry_run then
      (fs1, evs1 ++ evs2, none)
    else
      match tr with
      | .failDownload =>
        ({ fs1 with files := pending_name :: fs1.files },
         evs1 ++ evs2 ++ [.download file_name pending_name], some "IOError")
      | .failRename =>
        ({ fs1 with files := pending_name :: fs1.files },
         evs1 ++ evs2 ++ [.download file_name pending_name], some "OSError")
      | .ok =>
        ({ fs1 with files := local_name :: fs1.files },
         evs1 ++ evs2 ++
           [.download file_name pending_name, .renameFile pending_name local_name] ++
           (if A.remove then [.remoteRemove file_name] else []),
         none)

/-- The `for file_name in files` loop (lines 125-179): each file is handled
in turn; an exception from one file propagates immediately, abandoning the
rest of the list (there is no try/except inside `archive_service`). -/
def processFiles (A : Archiver) (s : Service) (base_dir : List Char)
    (tr : List Char → Tr) (fs : LocalFS) :
    List (List Char) → LocalFS × List Ev × Option String
  | [] => (fs, [], none)
  | f :: rest =>
    match processFile A s base_dir (tr f) fs f with
    | (fs1, evs1, some e) => (fs1, evs1, some e)
    | (fs1, evs1, none) =>
      match processFiles A s base_dir tr fs1 rest with
      | (fs2, evs2, err) => (fs2, evs1 ++ evs2, err)

/-- The `os.walk` collection of lines 187-191: every existing regular file
under the service's base directory.  `os.walk`'s traversal order is
filesystem-dependent; the state's own order is used (the consumer
`filter_by_age` re-sorts and membership is order-independent). -/
def walkFiles (base_dir : List Char) (fs : LocalFS) : List (List Char) :=
  fs.files.filter (fun f => (base_dir ++ ['/']).isPrefixOf f)

/-- The retention block (lines 184-205).  Python truthiness at line 186:
the block is skipped when `retention_period_days` is `None` or `0`. -/
def retentionPass (A : Archiver) (s : Service) (base_dir : List Char)
    (today : PyDate) (fs : LocalFS) : LocalFS × List Ev × Option String :=
  match s.retention_period_days with
  | none => (fs, [], none)
  | some n =>
    if n = 0 then (fs, [], none)
    else
      match filter_by_age (walkFiles base_dir fs) today
          (fun d => decide (d > (n : Int))) with
      | .error e => (fs, [], some e)
      | .ok files_to_delete =>
        let evs := (files_to_delete.map (fun f =>
          (if A.verbose || A.dry_run then [Ev.retentionPrint f] else []) ++
          (if A.dry_run then [] else [Ev.retentionRemove f]))).flatten
        let fs2 : LocalFS :=
          if A.dry_run then fs
          else { fs with files := fs.files.filter (fun f => !(files_to_delete.contains f)) }
        (fs2, evs, none)

/-- The per-unit local root `<base_dir>/<service.name>/<service.host>`
(line 85). -/
def serviceBaseDir (A : Archiver) (s : Service) : List Char :=
  pjoin (pjoin A.base_dir s.name) s.host

/-- `os.makedirs` when missing (lines 86-87): state part. -/
def ensureDirState (base_dir : List Char) (fs : LocalFS) : LocalFS :=
  if base_dir ∈ fs.dirs then fs else { fs with dirs := base_dir :: fs.dirs }

/-- `os.makedirs` when missing (lines 86-87): recorded action. -/
def ensureDirEvs (base_dir : List Char) (fs : LocalFS) : List Ev :=
  if base_dir ∈ fs.dirs then [] else [.makedirs base_dir]

/-- The missing-date-placeholder warning (lines 89-91).  Despite saying
"Ignoring", control falls through and the service is still processed. -/
def warnEvs (s : Service) : List Ev :=
  if containsSub dateToken s.pattern then [] else [.warnNoDate s.name]

/-- The `find` glob (line 105): the date token replaced by the ten-character
wildcard; a no-op when the token does not occur. -/
def globFor (s : Service) : List Char :=
  replaceAll dateToken dateWildcard s.pattern

/-- `Archiver.archive_service` (lines 80-205) with the run's external inputs
explicit: `today` (the clock), `listing` (the raw lines the remote `find`
prints), `tr` (per-file transfer outcome). -/
def archive_service (A : Archiver) (s : Service) (today : PyDate)
    (listing : List (List Char)) (tr : List Char → Tr) (fs : LocalFS) :
    LocalFS × List Ev × Option String :=
  let base_dir := serviceBaseDir A s
  let fs1 := ensureDirState base_dir fs
  let evs0 := ensureDirEvs base_dir fs ++ warnEvs s ++
    [.execFind s.directory (globFor s)]
  let files0 := sortOrd strLeB (listing.map pyStrip)
  match filter_by_age files0 today
      (fun d => decide (d > (s.days_to_keep_on_remote : Int))) with
  | .error e => (fs1, evs0, some e)
  | .ok files =>
    match processFiles A s base_dir tr fs1 files with
    | (fs2, evs4, some e) => (fs2, evs0 ++ evs4, some e)
    | (fs2, evs4, none) =>
      match retentionPass A s base_dir today fs2 with
      | (fs3, evs5, err) => (fs3, evs0 ++ evs4 ++ evs5, err)

/-- One configured (service, host) unit together with its run inputs. -/
structure RunUnit where
  service : Service
  listing : List (List Char)
  tr : List Char → Tr

/-- Top-level observable actions of `__main__`. -/
inductive MainEv
  | handling (name host : List Char)
  | svc (name host : List Char) (e : Ev)
  | unitError (name host : List Char) (msg : String)

/-- The `for service in services` loop of `__main__` (lines 246-253): each
unit is attempted; an exception from `archive_service` is caught, printed,
and the loop continues with the next unit. -/
def mainLoop (A : Archiver) (today : PyDate) (fs : LocalFS) :
    List RunUnit → LocalFS × List MainEv
  | [] => (fs, [])
  | u :: rest =>
    let evs0 : List MainEv :=
      if A.verbose then [.handling u.service.name u.service.host] else []
    match archive_service A u.service today u.listing u.tr fs with
    | (fs1, evs, err) =>
      let evsE : List MainEv :=
        match err with
        | some e => [.unitError u.service.name u.service.host e]
        | none => []
      match mainLoop A today fs1 rest with
      | (fs2, evs2) =>
        (fs2, evs0 ++ evs.map (MainEv.svc u.service.name u.service.host) ++ evsE ++ evs2)

/-- A mutating filesystem/remote action of the transfer or retention path
(as opposed to prints, warnings, listing, directory creation and
stale-pending cleanup). -/
def isTransferMutation : Ev → Bool
  | .download _ _ => true
  | .renameFile _ _ => true
  | .remoteRemove _ => true
  | .retentionRemove _ => true
  | _ => false

/-- A ten-character `YYYY-MM-DD` shape (any four-digit year) starting at
position `i` of `s`, read as numbers — the spec's notion of a date
substring, deliberately wider than `DATE_REGEX`. -/
def anyDateShapeAt (s : List Char) (i : Nat) : Option (Nat × Nat × Nat) :=
  match s.drop i with
  | a :: b :: c :: d :: '-' :: m1 :: m2 :: '-' :: e1 :: e2 :: _ =>
    if isDigitCh a && isDigitCh b && isDigitCh c && isDigitCh d &&
        isDigitCh m1 && isDigitCh m2 && isDigitCh e1 && isDigitCh e2 then
      some (1000 * digitVal a + 100 * digitVal b + 10 * digitVal c + digitVal d,
            10 * digitVal m1 + digitVal m2,
            10 * digitVal e1 + digitVal e2)
    else none
  | _ => none

/-- Does `s` contain a valid `YYYY-MM-DD` calendar-date substring with year
at least `minY`? -/
def hasValidDateSubstr (minY : Nat) (s : List Char) : Bool :=
  (List.range s.length).any (fun i =>
    match anyDateShapeAt s i with
    | some (y, m, d) => decide (minY ≤ y) && validDate y m d
    | none => false)

/-- Does the string contain a glob wildcard character? -/
def containsWildcardChar (s : List Char) : Bool := s.any (fun c => c = '?')

def sampleService : Service :=
  { name := "webapp".toList
    host := "h1".toList
    account := "acc".toList
    directory := "/var/log".toList
    pattern := "access-<DATE->.log".toList
    days_to_keep_on_remote := 7
    retention_period_days := none }

def sampleArchiver : Archiver :=
  { base_dir := "/archive".toList
    verbose := false
    dry_run := false
    remove := true
    use_ssh_agent := false }

def dryArchiver : Archiver := { sampleArchiver with dry_run := true, remove := false }

def emptyFS : LocalFS := { files := [], dirs := [] }

def sampleToday : PyDate := ⟨2024, 1, 21⟩

/-- Every `DATE_REGEX` match in `f`, if any, is a valid calendar date
(the failing case is the subject of C3). -/
def wellDated (f : List Char) : Bool :=
  match regexSearch f with
  | none => true
  | some (y, m, d) => validDate y m d

def fileRemote : List Char := "/var/log/access-2024-01-01.log".toList

def unitBase : List Char := "/archive/webapp/h1".toList

def fsWithLocal : LocalFS :=
  { files := [localNameFor unitBase fileRemote, pendingNameFor unitBase fileRemote]
    dirs := [unitBase] }

def secondRemote : List Char := "/var/log/access-2024-01-10.log".toList

def twoFileListing : List (List Char) := [fileRemote, secondRemote]

/-- Oracle making exactly the oldest file's download raise. -/
def failFirstTr (f : List Char) : Tr :=
  if f = fileRemote then Tr.failDownload else Tr.ok

def sampleUnit : RunUnit :=
  { service := sampleService
    listing := twoFileListing
    tr := failFirstTr }

def noDateService : Service := { sampleService with pattern := "access.log".toList }

def fsPendingOnly : LocalFS :=
  { files := [pendingNameFor unitBase fileRemote], dirs := [] }

/-! ## Theorems -/

theorem insertOrd_perm (le : α → α → Bool) (x : α) (l : List α) :
    (insertOrd le x l).Perm (x :: l) := by
  induction l with
  | nil => simp [insertOrd]
  | cons y ys ih =>
    by_cases h : le x y = true
    · simp [insertOrd, h]
    · simp only [insertOrd]
      rw [if_neg h]
      exact ((ih.cons y).trans (List.Perm.swap x y ys))

theorem mem_insertOrd (le : α → α → Bool) (x a : α) (l : List α) :
    a ∈ insertOrd le x l ↔ a = x ∨ a ∈ l := by
  have h := (insertOrd_perm le x l).mem_iff (a := a)
  simpa using h

theorem sortOrd_perm (le : α → α → Bool) (l : List α) : (sortOrd le l).Perm l := by
  induction l with
  | nil => simp [sortOrd]
  | cons x xs ih =>
    exact (insertOrd_perm le x (sortOrd le xs)).trans (ih.cons x)

theorem mem_sortOrd (le : α → α → Bool) (a : α) (l : List α) :
    a ∈ sortOrd le l ↔ a ∈ l := (sortOrd_perm le l).mem_iff

theorem pairwise_insertOrd (le : α → α → Bool)
    (htrans : ∀ a b c, le a b = true → le b c = true → le a c = true)
    (htot : ∀ a b, le a b = true ∨ le b a = true)
    (x : α) (l : List α) (h : List.Pairwise (fun a b => le a b = true) l) :
    List.Pairwise (fun a b => le a b = true) (insertOrd le x l) := by
  induction l with
  | nil => simp [insertOrd]
  | cons y ys ih =>
    rcases List.pairwise_cons.mp h with ⟨hy, hys⟩
    by_cases hxy : le x y = true
    · simp only [insertOrd]
      rw [if_pos hxy]
      refine List.pairwise_cons.mpr ⟨?_, h⟩
      intro b hb
      rcases List.mem_cons.mp hb with rfl | hb
      · exact hxy
      · exact htrans x y b hxy (hy b hb)
    · have hyx : le y x = true := by
        rcases htot x y with h1 | h1
        · exact absurd h1 hxy
        · exact h1
      simp only [insertOrd]
      rw [if_neg hxy]
      refine List.pairwise_cons.mpr ⟨?_, ih hys⟩
      intro b hb
      rcases (mem_insertOrd le x b ys).mp hb with hbx | hb
      · exact hbx ▸ hyx
      · exact hy b hb

theorem pairwise_sortOrd (le : α → α → Bool)
    (htrans : ∀ a b c, le a b = true → le b c = true → le a c = true)
    (htot : ∀ a b, le a b = true ∨ le b a = true)
    (l : List α) : List.Pairwise (fun a b => le a b = true) (sortOrd le l) := by
  induction l with
  | nil => simp [sortOrd]
  | cons x xs ih => exact pairwise_insertOrd le htrans htot x (sortOrd le xs) ih

theorem pairLe_trans (a b c : PyDate × List Char) :
    pairLe a b = true → pairLe b c = true → pairLe a c = true := by
  simp only [pairLe, decide_eq_true_eq]
  rintro (h1 | ⟨h1, h1s⟩) (h2 | ⟨h2, h2s⟩)
  · exact Or.inl (lt_trans h1 h2)
  · exact Or.inl (by omega)
  · exact Or.inl (by omega)
  · exact Or.inr ⟨h1.trans h2, le_trans h1s h2s⟩

theorem pairLe_total (a b : PyDate × List Char) :
    pairLe a b = true ∨ pairLe b a = true := by
  simp only [pairLe, decide_eq_true_eq]
  rcases lt_trichotomy (dateKey a.1) (dateKey b.1) with h | h | h
  · exact Or.inl (Or.inl h)
  · rcases le_total a.2 b.2 with hs | hs
    · exact Or.inl (Or.inr ⟨h, hs⟩)
    · exact Or.inr (Or.inr ⟨h.symm, hs⟩)
  · exact Or.inr (Or.inl h)

theorem matchHere_nil : matchHere [] = none := rfl

/-- Leftmost-match characterisation, direction used for C8: if position `i`
matches and no earlier position does, the search returns that match. -/
theorem regexSearch_of_leftmost (s : List Char) (i : Nat) (t : Nat × Nat × Nat)
    (hm : matchHere (s.drop i) = some t)
    (hleft : ∀ j, j < i → matchHere (s.drop j) = none) :
    regexSearch s = some t := by
  induction s generalizing i with
  | nil => simp [List.drop_nil, matchHere_nil] at hm
  | cons c cs ih =>
    cases i with
    | zero =>
      simp only [List.drop_zero] at hm
      simp [regexSearch, hm]
    | succ i =>
      have h0 : matchHere (c :: cs) = none := by
        have := hleft 0 (Nat.succ_pos i)
        simpa using this
      have hm' : matchHere (cs.drop i) = some t := by simpa using hm
      have hleft' : ∀ j, j < i → matchHere (cs.drop j) = none := by
        intro j hj
        have := hleft (j + 1) (Nat.succ_lt_succ hj)
        simpa using this
      simp [regexSearch, h0, ih i hm' hleft']

/-- If no position matches, the search fails. -/
theorem regexSearch_of_allNone (s : List Char)
    (h : ∀ i, matchHere (s.drop i) = none) : regexSearch s = none := by
  induction s with
  | nil => rfl
  | cons c cs ih =>
    have h0 : matchHere (c :: cs) = none := by simpa using h 0
    have h' : ∀ i, matchHere (cs.drop i) = none := by
      intro i
      have := h (i + 1)
      simpa using this
    simp [regexSearch, h0, ih h']

theorem endsWith_append (suf s : List Char) : endsWith suf (s ++ suf) = true := by
  unfold endsWith
  rw [List.isSuffixOf_iff_suffix]
  exact List.suffix_append s suf

theorem matchHere_drop_ge (s : List Char) (i : Nat) (h : s.length ≤ i) :
    matchHere (s.drop i) = none := by
  rw [List.drop_eq_nil_of_le h, matchHere_nil]

theorem replaceAllAux_of_not_contains (pat rep : List Char) :
    ∀ (fuel : Nat) (s : List Char), containsSub pat s = false →
      replaceAllAux pat rep fuel s = s
  | 0, [], _ => rfl
  | fuel + 1, [], _ => rfl
  | 0, _ :: _, _ => rfl
  | fuel + 1, c :: cs, h => by
    unfold containsSub at h
    rw [Bool.or_eq_false_iff] at h
    unfold replaceAllAux
    rw [if_neg (by simp [h.1])]
    rw [replaceAllAux_of_not_contains pat rep fuel cs h.2]

/-- `s.replace(pat, rep)` is the identity when `pat` does not occur in `s`. -/
theorem replaceAll_of_not_contains (pat rep s : List Char)
    (h : containsSub pat s = false) : replaceAll pat rep s = s :=
  replaceAllAux_of_not_contains pat rep s.length s h

/-- C1: the claim says the Retention Pruner runs exactly for services whose
descriptor has `retention_period_days` set.  The code cannot exhibit that
behaviour: the `Service` namedtuple declared at lines 32-35 has no
`retention_period_days` field, yet `__main__` passes that keyword when
constructing every service (line 236), so construction raises `TypeError`
before any archiving; and the attribute read at line 186 would raise
`AttributeError` on a six-field `Service`.  This theorem evaluates the
embedded namedtuple-call semantics at the constructor call `__main__`
makes, and records that the field is absent from the declared tuple. -/
theorem C1_service_construction_raises :
    namedtupleKwCall serviceFields mainServiceKwargs =
      .error "TypeError: unexpected keyword argument retention_period_days" ∧
    serviceFields.contains "retention_period_days" = false :=
  ⟨rfl, rfl⟩

/-- C3 counterexample: a filename whose embedded date substring has month 13
and day 32 is not silently excluded — `date(2020, 13, 32)` raises
`ValueError`, and with no try/except in `filter_by_age` the error escapes
the operation (the result is an error, not `ok []`). -/
theorem C3_counterexample :
    filter_by_age ["app-2020-13-32.log".toList] sampleToday
      (fun dd => decide (dd > 7)) = .error "ValueError" := rfl

theorem collectDated_error_of_invalid (today : PyDate) (cmp : Int → Bool)
    (f : List Char) (y m d : Nat) (hm : regexSearch f = some (y, m, d))
    (hv : validDate y m d = false) :
    ∀ files, f ∈ files → ∃ e, collectDated today cmp files = .error e := by
  intro files
  induction files with
  | nil => intro hf; cases hf
  | cons g gs ih =>
    intro hf
    rcases List.mem_cons.mp hf with rfl | hf2
    · refine ⟨"ValueError", ?_⟩
      have hmk : mkDate y m d = .error "ValueError" := by
        simp [mkDate, hv]
      simp [collectDated, hm, hmk]
    · rcases ih hf2 with ⟨e, he⟩
      cases hg : regexSearch g with
      | none => exact ⟨e, by simp [collectDated, hg, he]⟩
      | some t =>
        obtain ⟨y2, m2, d2⟩ := t
        cases hmk : mkDate y2 m2 d2 with
        | error e2 => exact ⟨e2, by simp [collectDated, hg, hmk]⟩
        | ok fd => exact ⟨e, by simp [collectDated, hg, hmk, he]⟩

/-- C3 amended: for every input filename whose embedded date substring forms
an invalid calendar date, the `date()` constructor's `ValueError` escapes
`filter_by_age` (there is no try/except around line 55): the whole filtering
operation for that batch fails, rather than the file being silently
excluded. -/
theorem C3_invalid_date_error_escapes (files : List (List Char)) (f : List Char)
    (today : PyDate) (cmp : Int → Bool) (y m d : Nat)
    (hf : f ∈ files) (hm : regexSearch f = some (y, m, d))
    (hv : validDate y m d = false) :
    ∃ e, filter_by_age files today cmp = .error e := by
  rcases collectDated_error_of_invalid today cmp f y m d hm hv files hf with ⟨e, he⟩
  exact ⟨e, by simp [filter_by_age, he, Except.map]⟩

theorem C3_witness :
    (∃ e, filter_by_age ["good-2024-01-01.log".toList, "app-2020-13-32.log".toList]
        sampleToday (fun dd => decide (dd > 7)) = .error e) ∧
    filter_by_age ["good-2024-01-01.log".toList, "app-2020-13-32.log".toList]
        sampleToday (fun dd => decide (dd > 7)) = .error "ValueError" :=
  ⟨C3_invalid_date_error_escapes _ "app-2020-13-32.log".toList _ _ 2020 13 32
      (by decide) (by decide) (by decide),
   rfl⟩

/-- C8 counterexample: `"app-2100-01-01.log"` contains a valid `YYYY-MM-DD`
substring whose year (2100) is ≥ 2000, yet extraction returns absent:
`DATE_REGEX` only matches years 2000-2099 (literal `20` prefix). -/
theorem C8_counterexample :
    hasValidDateSubstr 2000 "app-2100-01-01.log".toList = true ∧
    extract_date "app-2100-01-01.log".toList = .ok none :=
  ⟨by decide, rfl⟩

/-- C8 amended: for every filename whose leftmost `DATE_REGEX`-shaped
substring (literal `20`, two digits, `-`, two digits, `-`, two digits, i.e.
years 2000-2099 only) forms a valid calendar date, extraction returns
exactly that date; for filenames containing no regex-shaped substring at any
position it returns absent.  (Years outside 2000-2099 never match, and when
the leftmost shaped substring is an invalid date the operation errors
instead of falling through to a later valid substring.) -/
theorem C8_extract_date_spec (s : List Char) :
    (∀ i y m d, matchHere (s.drop i) = some (y, m, d) →
        (∀ j, j < i → matchHere (s.drop j) = none) →
        validDate y m d = true →
        extract_date s = .ok (some ⟨y, m, d⟩)) ∧
    ((∀ i, i < s.length → matchHere (s.drop i) = none) →
        extract_date s = .ok none) := by
  constructor
  · intro i y m d hm hleft hv
    have hs := regexSearch_of_leftmost s i (y, m, d) hm hleft
    simp [extract_date, hs, mkDate, hv, Except.map]
  · intro h
    have hall : ∀ i, matchHere (s.drop i) = none := by
      intro i
      by_cases hi : i < s.length
      · exact h i hi
      · exact matchHere_drop_ge s i (le_of_not_lt hi)
    have hs := regexSearch_of_allNone s hall
    simp [extract_date, hs]

theorem C8_witness :
    extract_date "app-2024-05-06.log.gz".toList = .ok (some ⟨2024, 5, 6⟩) ∧
    extract_date "nodate.log".toList = .ok none :=
  ⟨(C8_extract_date_spec "app-2024-05-06.log.gz".toList).1 4 2024 5 6
      (by decide) (by decide) (by decide),
   (C8_extract_date_spec "nodate.log".toList).2 (by decide)⟩

theorem collectDated_ok (today : PyDate) (cmp : Int → Bool) :
    ∀ files : List (List Char),
      (∀ f ∈ files, wellDated f = true) →
      ∃ rs, collectDated today cmp files = .ok rs ∧
        ∀ dt f, (dt, f) ∈ rs ↔
          (f ∈ files ∧ extractDateOpt f = some dt ∧ cmp (dateDiffDays today dt) = true) := by
  intro files
  induction files with
  | nil =>
    intro _
    exact ⟨[], rfl, by simp⟩
  | cons g gs ih =>
    intro h
    have hg := h g (List.mem_cons_self g gs)
    have hgs : ∀ f ∈ gs, wellDated f = true :=
      fun f hf => h f (List.mem_cons_of_mem g hf)
    rcases ih hgs with ⟨rs, hrs, hmem⟩
    cases hsearch : regexSearch g with
    | none =>
      refine ⟨rs, by simp [collectDated, hsearch, hrs], ?_⟩
      intro dt f
      rw [hmem dt f]
      constructor
      · rintro ⟨hf, hext, hcmp⟩
        exact ⟨List.mem_cons_of_mem g hf, hext, hcmp⟩
      · rintro ⟨hf, hext, hcmp⟩
        rcases List.mem_cons.mp hf with rfl | hf2
        · rw [extractDateOpt, hsearch] at hext
          cases hext
        · exact ⟨hf2, hext, hcmp⟩
    | some t =>
      obtain ⟨y, m, d⟩ := t
      have hv : validDate y m d = true := by
        unfold wellDated at hg
        rw [hsearch] at hg
        exact hg
      have hmk : mkDate y m d = .ok ⟨y, m, d⟩ := by simp [mkDate, hv]
      have hext : extractDateOpt g = some ⟨y, m, d⟩ := by
        simp [extractDateOpt, hsearch, hmk, Except.toOption]
      cases hc : cmp (dateDiffDays today ⟨y, m, d⟩) with
      | true =>
        refine ⟨(⟨y, m, d⟩, g) :: rs, ?_, ?_⟩
        · simp [collectDated, hsearch, hmk, hrs, hc]
        · intro dt f
          constructor
          · intro hin
            rcases List.mem_cons.mp hin with heq | hmem2
            · obtain ⟨h1, h2⟩ := Prod.mk.inj heq
              refine ⟨List.mem_cons.mpr (Or.inl h2), ?_, ?_⟩
              · rw [h2, hext, h1]
              · rw [h1]
                exact hc
            · rcases (hmem dt f).mp hmem2 with ⟨hf, hext2, hcmp⟩
              exact ⟨List.mem_cons_of_mem g hf, hext2, hcmp⟩
          · rintro ⟨hf, hext2, hcmp⟩
            rcases List.mem_cons.mp hf with rfl | hf2
            · refine List.mem_cons.mpr (Or.inl ?_)
              rw [hext] at hext2
              obtain rfl := Option.some.inj hext2.symm
              rfl
            · exact List.mem_cons.mpr (Or.inr ((hmem dt f).mpr ⟨hf2, hext2, hcmp⟩))
      | false =>
        refine ⟨rs, by simp [collectDated, hsearch, hmk, hrs, hc], ?_⟩
        intro dt f
        rw [hmem dt f]
        constructor
        · rintro ⟨hf, hext2, hcmp⟩
          exact ⟨List.mem_cons_of_mem g hf, hext2, hcmp⟩
        · rintro ⟨hf, hext2, hcmp⟩
          rcases List.mem_cons.mp hf with rfl | hf2
          · rw [hext] at hext2
            obtain rfl := Option.some.inj hext2.symm
            rw [hcmp] at hc
            cases hc
          · exact ⟨hf2, hext2, hcmp⟩

/-- C6: for every list of filenames and age predicate (assuming every
regex-matching filename carries a valid calendar date — the invalid-date
case is C3's), `filter_by_age` returns exactly the filenames whose extracted
date satisfies `cmp (today - file_date)`, as the second components of a list
of `(date, filename)` pairs sorted ascending by date with ties broken by
filename (Python tuple order). -/
theorem C6_filter_by_age_spec (files : List (List Char)) (today : PyDate)
    (cmp : Int → Bool)
    (h : ∀ f ∈ files, wellDated f = true) :
    ∃ ps : List (PyDate × List Char),
      filter_by_age files today cmp = .ok (ps.map Prod.snd) ∧
      List.Pairwise (fun a b => pairLe a b = true) ps ∧
      ∀ dt f, (dt, f) ∈ ps ↔
        (f ∈ files ∧ extractDateOpt f = some dt ∧ cmp (dateDiffDays today dt) = true) := by
  rcases collectDated_ok today cmp files h with ⟨rs, hrs, hmem⟩
  refine ⟨sortOrd pairLe rs, ?_, ?_, ?_⟩
  · simp [filter_by_age, hrs, Except.map]
  · exact pairwise_sortOrd pairLe pairLe_trans pairLe_total rs
  · intro dt f
    rw [mem_sortOrd]
    exact hmem dt f

theorem C6_witness :
    (∃ ps : List (PyDate × List Char),
      filter_by_age ["a-2024-01-11.log".toList, "b-2024-01-16.log".toList,
          "c-2024-01-19.log".toList] sampleToday (fun dd => decide (dd > 7)) =
        .ok (ps.map Prod.snd) ∧
      List.Pairwise (fun a b => pairLe a b = true) ps ∧
      ∀ dt f, (dt, f) ∈ ps ↔
        (f ∈ ["a-2024-01-11.log".toList, "b-2024-01-16.log".toList,
            "c-2024-01-19.log".toList] ∧
          extractDateOpt f = some dt ∧
          decide (dateDiffDays sampleToday dt > 7) = true)) ∧
    filter_by_age ["a-2024-01-11.log".toList, "b-2024-01-16.log".toList,
        "c-2024-01-19.log".toList] sampleToday (fun dd => decide (dd > 7)) =
      .ok ["a-2024-01-11.log".toList] :=
  ⟨C6_filter_by_age_spec _ sampleToday _ (by decide), rfl⟩

theorem localName_ne_pendingName (base_dir file_name : List Char) :
    localNameFor base_dir file_name ≠ pendingNameFor base_dir file_name := by
  intro h
  have hlen := congrArg List.length h
  simp [pendingNameFor, dlExt] at hlen

theorem sweep_dirs (base_dir file_name : List Char) (fs : LocalFS) :
    (sweep base_dir file_name fs).dirs = fs.dirs := by
  unfold sweep
  split <;> rfl

theorem mem_sweep_of_ne (base_dir file_name x : List Char) (fs : LocalFS)
    (hne : x ≠ pendingNameFor base_dir file_name) (hx : x ∈ fs.files) :
    x ∈ (sweep base_dir file_name fs).files := by
  unfold sweep
  split
  · exact (List.mem_erase_of_ne hne).mpr hx
  · exact hx

theorem mem_of_mem_sweep (base_dir file_name x : List Char) (fs : LocalFS)
    (hx : x ∈ (sweep base_dir file_name fs).files) : x ∈ fs.files := by
  unfold sweep at hx
  split at hx
  · exact List.mem_of_mem_erase hx
  · exact hx

theorem remoteRemove_not_mem_sweepEvs (base_dir file_name p : List Char)
    (fs : LocalFS) : Ev.remoteRemove p ∉ sweepEvs base_dir file_name fs := by
  unfold sweepEvs
  split <;> simp

theorem remoteRemove_not_mem_printEvs (A : Archiver) (s : Service)
    (file_name local_name p : List Char) :
    Ev.remoteRemove p ∉ printEvs A s file_name local_name := by
  unfold printEvs
  split <;> simp

/-- Branch equation: destination already exists (line 134) — skip. -/
theorem processFile_eq_skip (A : Archiver) (s : Service) (base_dir : List Char)
    (tr : Tr) (fs : LocalFS) (file_name : List Char)
    (h : localNameFor base_dir file_name ∈ (sweep base_dir file_name fs).files) :
    processFile A s base_dir tr fs file_name =
      (sweep base_dir file_name fs,
       sweepEvs base_dir file_name fs ++
         [.warnExists (localNameFor base_dir file_name)],
       none) := by
  simp only [processFile]
  rw [if_pos h]

/-- Branch equation: dry run (line 161 guard). -/
theorem processFile_eq_dry (A : Archiver) (s : Service) (base_dir : List Char)
    (tr : Tr) (fs : LocalFS) (file_name : List Char)
    (h : localNameFor base_dir file_name ∉ (sweep base_dir file_name fs).files)
    (hd : A.dry_run = true) :
    processFile A s base_dir tr fs file_name =
      (sweep base_dir file_name fs,
       sweepEvs base_dir file_name fs ++
         printEvs A s file_name (localNameFor base_dir file_name),
       none) := by
  simp only [processFile]
  rw [if_neg h, if_pos hd]

/-- Branch equation: the download raises (step 5 fails). -/
theorem processFile_eq_failDownload (A : Archiver) (s : Service)
    (base_dir : List Char) (fs : LocalFS) (file_name : List Char)
    (h : localNameFor base_dir file_name ∉ (sweep base_dir file_name fs).files)
    (hd : A.dry_run = false) :
    processFile A s base_dir Tr.failDownload fs file_name =
      ({ sweep base_dir file_name fs with
          files := pendingNameFor base_dir file_name ::
            (sweep base_dir file_name fs).files },
       sweepEvs base_dir file_name fs ++
         printEvs A s file_name (localNameFor base_dir file_name) ++
         [.download file_name (pendingNameFor base_dir file_name)],
       some "IOError") := by
  simp only [processFile]
  rw [if_neg h, if_neg (by simp [hd])]

/-- Branch equation: the rename raises (step 6 fails). -/
theorem processFile_eq_failRename (A : Archiver) (s : Service)
    (base_dir : List Char) (fs : LocalFS) (file_name : List Char)
    (h : localNameFor base_dir file_name ∉ (sweep base_dir file_name fs).files)
    (hd : A.dry_run = false) :
    processFile A s base_dir Tr.failRename fs file_name =
      ({ sweep base_dir file_name fs with
          files := pendingNameFor base_dir file_name ::
            (sweep base_dir file_name fs).files },
       sweepEvs base_dir file_name fs ++
         printEvs A s file_name (localNameFor base_dir file_name) ++
         [.download file_name (pendingNameFor base_dir file_name)],
       some "OSError") := by
  simp only [processFile]
  rw [if_neg h, if_neg (by simp [hd])]

/-- Branch equation: the transfer succeeds (steps 5-7). -/
theorem processFile_eq_ok (A : Archiver) (s : Service) (base_dir : List Char)
    (fs : LocalFS) (file_name : List Char)
    (h : localNameFor base_dir file_name ∉ (sweep base_dir file_name fs).files)
    (hd : A.dry_run = false) :
    processFile A s base_dir Tr.ok fs file_name =
      ({ sweep base_dir file_name fs with
          files := localNameFor base_dir file_name ::
            (sweep base_dir file_name fs).files },
       sweepEvs base_dir file_name fs ++
         printEvs A s file_name (localNameFor base_dir file_name) ++
         [.download file_name (pendingNameFor base_dir file_name),
          .renameFile (pendingNameFor base_dir file_name)
            (localNameFor base_dir file_name)] ++
         (if A.remove then [.remoteRemove file_name] else []),
       none) := by
  simp only [processFile]
  rw [if_neg h, if_neg (by simp [hd])]

/-- C7: for every file whose final local name already exists, the per-file
fetch is a skip: an "already exists" warning is reported, no transfer,
rename, remote-deletion or retention event occurs, no error is raised, and
the local file is still present afterwards; the only state change is the
unconditional stale-pending sweep.  Running the operation again for an
already-completed file is therefore a no-op that cannot re-trigger remote
deletion. -/
theorem C7_fetch_idempotent (A : Archiver) (s : Service) (base_dir : List Char)
    (tr : Tr) (fs : LocalFS) (file_name : List Char)
    (h : localNameFor base_dir file_name ∈ fs.files) :
    (processFile A s base_dir tr fs file_name).1.files =
      (if pendingNameFor base_dir file_name ∈ fs.files then
        fs.files.erase (pendingNameFor base_dir file_name) else fs.files) ∧
    (processFile A s base_dir tr fs file_name).1.dirs = fs.dirs ∧
    Ev.warnExists (localNameFor base_dir file_name) ∈
      (processFile A s base_dir tr fs file_name).2.1 ∧
    (∀ e ∈ (processFile A s base_dir tr fs file_name).2.1,
      isTransferMutation e = false) ∧
    (processFile A s base_dir tr fs file_name).2.2 = none ∧
    localNameFor base_dir file_name ∈ (processFile A s base_dir tr fs file_name).1.files := by
  have hne := localName_ne_pendingName base_dir file_name
  have hl : localNameFor base_dir file_name ∈ (sweep base_dir file_name fs).files :=
    mem_sweep_of_ne base_dir file_name _ fs hne h
  rw [processFile_eq_skip A s base_dir tr fs file_name hl]
  refine ⟨?_, sweep_dirs base_dir file_name fs, ?_, ?_, rfl, hl⟩
  · unfold sweep
    split <;> rfl
  · simp
  · intro e he
    rcases List.mem_append.mp he with h1 | h1
    · unfold sweepEvs at h1
      split at h1 <;> simp at h1
      subst h1
      rfl
    · rw [List.mem_singleton.mp h1]
      rfl

theorem C7_witness :
    localNameFor unitBase fileRemote ∈ fsWithLocal.files ∧
    ((processFile dryArchiver sampleService unitBase Tr.ok fsWithLocal fileRemote).1.files =
      (if pendingNameFor unitBase fileRemote ∈ fsWithLocal.files then
        fsWithLocal.files.erase (pendingNameFor unitBase fileRemote) else fsWithLocal.files) ∧
    (processFile dryArchiver sampleService unitBase Tr.ok fsWithLocal fileRemote).1.dirs =
      fsWithLocal.dirs ∧
    Ev.warnExists (localNameFor unitBase fileRemote) ∈
      (processFile dryArchiver sampleService unitBase Tr.ok fsWithLocal fileRemote).2.1 ∧
    (∀ e ∈ (processFile dryArchiver sampleService unitBase Tr.ok fsWithLocal fileRemote).2.1,
      isTransferMutation e = false) ∧
    (processFile dryArchiver sampleService unitBase Tr.ok fsWithLocal fileRemote).2.2 = none ∧
    localNameFor unitBase fileRemote ∈
      (processFile dryArchiver sampleService unitBase Tr.ok fsWithLocal fileRemote).1.files) :=
  ⟨by decide,
   C7_fetch_idempotent dryArchiver sampleService unitBase Tr.ok fsWithLocal fileRemote (by decide)⟩

/-- C10: for every file considered by the fetch loop, a stale pending file
is deleted before the already-archived check: the removal is the first
recorded action, and when the final local name already exists (so the
transfer is skipped) the stale pending sibling is still gone from the
resulting state.  The theorem holds for every flag assignment — in
particular with `dry_run = true` — since lines 131-132 are unguarded. -/
theorem C10_stale_pending_removed_first (A : Archiver) (s : Service)
    (base_dir : List Char) (tr : Tr) (fs : LocalFS) (file_name : List Char)
    (hp : pendingNameFor base_dir file_name ∈ fs.files)
    (hnd : fs.files.Nodup) :
    (∃ tl, (processFile A s base_dir tr fs file_name).2.1 =
        Ev.removePending (pendingNameFor base_dir file_name) :: tl) ∧
    (localNameFor base_dir file_name ∈ fs.files →
      pendingNameFor base_dir file_name ∉
        (processFile A s base_dir tr fs file_name).1.files) := by
  have hne := localName_ne_pendingName base_dir file_name
  have hsw : sweepEvs base_dir file_name fs =
      [Ev.removePending (pendingNameFor base_dir file_name)] := by
    unfold sweepEvs
    rw [if_pos hp]
  constructor
  · by_cases hl : localNameFor base_dir file_name ∈ (sweep base_dir file_name fs).files
    · rw [processFile_eq_skip A s base_dir tr fs file_name hl, hsw]
      exact ⟨_, rfl⟩
    · by_cases hd : A.dry_run = true
      · rw [processFile_eq_dry A s base_dir tr fs file_name hl hd, hsw]
        exact ⟨_, rfl⟩
      · have hd2 : A.dry_run = false := by
          revert hd
          cases A.dry_run <;> simp
        cases tr
        · rw [processFile_eq_ok A s base_dir fs file_name hl hd2, hsw]
          exact ⟨_, rfl⟩
        · rw [processFile_eq_failDownload A s base_dir fs file_name hl hd2, hsw]
          exact ⟨_, rfl⟩
        · rw [processFile_eq_failRename A s base_dir fs file_name hl hd2, hsw]
          exact ⟨_, rfl⟩
  · intro hl
    have hl2 : localNameFor base_dir file_name ∈ (sweep base_dir file_name fs).files :=
      mem_sweep_of_ne base_dir file_name _ fs hne hl
    rw [processFile_eq_skip A s base_dir tr fs file_name hl2]
    unfold sweep
    rw [if_pos hp]
    exact hnd.not_mem_erase

theorem C10_witness :
    pendingNameFor unitBase fileRemote ∈ fsWithLocal.files ∧
    fsWithLocal.files.Nodup ∧
    ((∃ tl, (processFile dryArchiver sampleService unitBase Tr.ok fsWithLocal fileRemote).2.1 =
        Ev.removePending (pendingNameFor unitBase fileRemote) :: tl) ∧
    (localNameFor unitBase fileRemote ∈ fsWithLocal.files →
      pendingNameFor unitBase fileRemote ∉
        (processFile dryArchiver sampleService unitBase Tr.ok fsWithLocal fileRemote).1.files)) :=
  ⟨by decide, by decide,
   C10_stale_pending_removed_first dryArchiver sampleService unitBase Tr.ok fsWithLocal
     fileRemote (by decide) (by decide)⟩

/-- C5: a remote-removal action for a file occurs only when removal is
enabled for the run and that file's transfer fully succeeded (no dry-run),
and the successful rename of the pending name to the final name is recorded
immediately before it.  Contrapositively, in every execution where the
rename does not succeed (failed download or failed rename) or removal is
disabled, the remote file is never removed. -/
theorem C5_remote_delete_only_after_rename (A : Archiver) (s : Service)
    (base_dir : List Char) (tr : Tr) (fs : LocalFS) (file_name p : List Char)
    (h : Ev.remoteRemove p ∈ (processFile A s base_dir tr fs file_name).2.1) :
    A.remove = true ∧ tr = Tr.ok ∧ A.dry_run = false ∧ p = file_name ∧
    ∃ l1, (processFile A s base_dir tr fs file_name).2.1 =
      l1 ++ [Ev.renameFile (pendingNameFor base_dir file_name)
               (localNameFor base_dir file_name),
             Ev.remoteRemove file_name] := by
  by_cases hl : localNameFor base_dir file_name ∈ (sweep base_dir file_name fs).files
  · exfalso
    rw [processFile_eq_skip A s base_dir tr fs file_name hl] at h
    rcases List.mem_append.mp h with h1 | h1
    · exact remoteRemove_not_mem_sweepEvs base_dir file_name p fs h1
    · simp at h1
  · by_cases hd : A.dry_run = true
    · exfalso
      rw [processFile_eq_dry A s base_dir tr fs file_name hl hd] at h
      rcases List.mem_append.mp h with h1 | h1
      · exact remoteRemove_not_mem_sweepEvs base_dir file_name p fs h1
      · exact remoteRemove_not_mem_printEvs A s file_name _ p h1
    · have hd2 : A.dry_run = false := by
        revert hd
        cases A.dry_run <;> simp
      cases tr with
      | failDownload =>
        exfalso
        rw [processFile_eq_failDownload A s base_dir fs file_name hl hd2] at h
        rcases List.mem_append.mp h with h1 | h1
        · rcases List.mem_append.mp h1 with h2 | h2
          · exact remoteRemove_not_mem_sweepEvs base_dir file_name p fs h2
          · exact remoteRemove_not_mem_printEvs A s file_name _ p h2
        · simp at h1
      | failRename =>
        exfalso
        rw [processFile_eq_failRename A s base_dir fs file_name hl hd2] at h
        rcases List.mem_append.mp h with h1 | h1
        · rcases List.mem_append.mp h1 with h2 | h2
          · exact remoteRemove_not_mem_sweepEvs base_dir file_name p fs h2
          · exact remoteRemove_not_mem_printEvs A s file_name _ p h2
        · simp at h1
      | ok =>
        rw [processFile_eq_ok A s base_dir fs file_name hl hd2] at h
        by_cases hrem : A.remove = true
        · have hpeq : p = file_name := by
            rcases List.mem_append.mp h with h1 | h1
            · exfalso
              rcases List.mem_append.mp h1 with h2 | h2
              · rcases List.mem_append.mp h2 with h3 | h3
                · exact remoteRemove_not_mem_sweepEvs base_dir file_name p fs h3
                · exact remoteRemove_not_mem_printEvs A s file_name _ p h3
              · simp at h2
            · rw [if_pos hrem] at h1
              simpa using h1
          refine ⟨hrem, rfl, hd2, hpeq, ?_⟩
          rw [processFile_eq_ok A s base_dir fs file_name hl hd2]
          refine ⟨sweepEvs base_dir file_name fs ++
            printEvs A s file_name (localNameFor base_dir file_name) ++
            [Ev.download file_name (pendingNameFor base_dir file_name)], ?_⟩
          rw [if_pos hrem]
          simp
        · exfalso
          rw [if_neg hrem] at h
          rcases List.mem_append.mp h with h1 | h1
          · rcases List.mem_append.mp h1 with h2 | h2
            · rcases List.mem_append.mp h2 with h3 | h3
              · exact remoteRemove_not_mem_sweepEvs base_dir file_name p fs h3
              · exact remoteRemove_not_mem_printEvs A s file_name _ p h3
            · simp at h2
          · simp at h1

theorem C5_witness :
    Ev.remoteRemove fileRemote ∈
      (processFile sampleArchiver sampleService unitBase Tr.ok emptyFS fileRemote).2.1 ∧
    (sampleArchiver.remove = true ∧ Tr.ok = Tr.ok ∧ sampleArchiver.dry_run = false ∧
      fileRemote = fileRemote ∧
      ∃ l1, (processFile sampleArchiver sampleService unitBase Tr.ok emptyFS fileRemote).2.1 =
        l1 ++ [Ev.renameFile (pendingNameFor unitBase fileRemote)
                 (localNameFor unitBase fileRemote),
               Ev.remoteRemove fileRemote]) :=
  ⟨by decide,
   C5_remote_delete_only_after_rename sampleArchiver sampleService unitBase Tr.ok emptyFS
     fileRemote fileRemote (by decide)⟩

/-- Every branch of `archive_service` records the directory check, the
possible warning and the remote listing before anything else. -/
theorem archive_service_evs_shape (A : Archiver) (s : Service) (today : PyDate)
    (listing : List (List Char)) (tr : List Char → Tr) (fs : LocalFS) :
    ∃ tl, (archive_service A s today listing tr fs).2.1 =
      ensureDirEvs (serviceBaseDir A s) fs ++ warnEvs s ++
        [Ev.execFind s.directory (globFor s)] ++ tl := by
  simp only [archive_service]
  split
  · exact ⟨[], by simp⟩
  · split
    · next fs2 evs4 e heq =>
      exact ⟨evs4, by simp⟩
    · next fs2 evs4 heq =>
      exact ⟨evs4 ++ (retentionPass A s (serviceBaseDir A s) today fs2).2.1, by simp⟩

/-- Every unit in the main loop gets its remote listing executed, no matter
what happened to the units before it (the per-unit try/except at lines
250-253 catches and continues). -/
theorem execFind_mem_mainLoop (A : Archiver) (today : PyDate) :
    ∀ (units : List RunUnit) (u : RunUnit), u ∈ units → ∀ fs : LocalFS,
      MainEv.svc u.service.name u.service.host
          (Ev.execFind u.service.directory (globFor u.service)) ∈
        (mainLoop A today fs units).2 := by
  intro units
  induction units with
  | nil =>
    intro u hu
    cases hu
  | cons v vs ih =>
    intro u hu fs
    rcases hres : archive_service A v.service today v.listing v.tr fs with ⟨fs1, evs, err⟩
    rcases hml : mainLoop A today fs1 vs with ⟨fs2, evs2⟩
    rcases List.mem_cons.mp hu with rfl | hu2
    · rcases archive_service_evs_shape A u.service today u.listing u.tr fs with ⟨tl, htl⟩
      rw [hres] at htl
      simp only at htl
      simp only [mainLoop, hres, hml]
      have hmem : Ev.execFind u.service.directory (globFor u.service) ∈ evs := by
        rw [htl]
        simp
      simp only [List.mem_append]
      exact Or.inl (Or.inl (Or.inr (List.mem_map_of_mem _ hmem)))
    · have hmem2 := ih u hu2 fs1
      rw [hml] at hmem2
      simp only [mainLoop, hres, hml]
      simp only [List.mem_append]
      exact Or.inr hmem2

/-- C2 counterexample: with two selected files in one unit and an I/O error
while transferring the first, `archive_service` propagates the error: the
second file of the same unit is never touched — no event mentions it, its
local file is not created — contradicting "logs it and continues with the
next file of the same unit". -/
theorem C2_counterexample :
    (archive_service sampleArchiver sampleService sampleToday twoFileListing
        failFirstTr emptyFS).2.2 = some "IOError" ∧
    localNameFor unitBase secondRemote ∉
      (archive_service sampleArchiver sampleService sampleToday twoFileListing
        failFirstTr emptyFS).1.files ∧
    Ev.download secondRemote (pendingNameFor unitBase secondRemote) ∉
      (archive_service sampleArchiver sampleService sampleToday twoFileListing
        failFirstTr emptyFS).2.1 ∧
    Ev.printArchiving sampleService.host secondRemote (localNameFor unitBase secondRemote) ∉
      (archive_service sampleArchiver sampleService sampleToday twoFileListing
        failFirstTr emptyFS).2.1 := by
  refine ⟨rfl, by decide, by decide, by decide⟩

/-- C2 amended: an I/O error raised while transferring one file propagates
out of the per-file loop immediately — the remaining files of that unit's
batch are abandoned — and is caught only by the per-unit handler in
`__main__`, which logs it and continues with the next (service, host) unit,
so a failed unit does not abort the run. -/
theorem C2_error_aborts_unit_but_not_run (A : Archiver) (s : Service)
    (base_dir : List Char) (tr : List Char → Tr) (fs fs1 : LocalFS)
    (evs1 : List Ev) (e : String) (f : List Char) (rest : List (List Char))
    (today : PyDate) (units : List RunUnit) (u : RunUnit)
    (h : processFile A s base_dir (tr f) fs f = (fs1, evs1, some e))
    (hu : u ∈ units) :
    processFiles A s base_dir tr fs (f :: rest) = (fs1, evs1, some e) ∧
    MainEv.svc u.service.name u.service.host
        (Ev.execFind u.service.directory (globFor u.service)) ∈
      (mainLoop A today fs units).2 := by
  constructor
  · simp [processFiles, h]
  · exact execFind_mem_mainLoop A today units u hu fs

theorem C2_witness :
    processFile sampleArchiver sampleService unitBase (failFirstTr fileRemote)
        emptyFS fileRemote =
      (LocalFS.mk [pendingNameFor unitBase fileRemote] [],
       [Ev.download fileRemote (pendingNameFor unitBase fileRemote)],
       some "IOError") ∧
    (processFiles sampleArchiver sampleService unitBase failFirstTr emptyFS
        (fileRemote :: [secondRemote]) =
      (LocalFS.mk [pendingNameFor unitBase fileRemote] [],
       [Ev.download fileRemote (pendingNameFor unitBase fileRemote)],
       some "IOError") ∧
    MainEv.svc sampleService.name sampleService.host
        (Ev.execFind sampleService.directory (globFor sampleService)) ∈
      (mainLoop sampleArchiver sampleToday emptyFS [sampleUnit]).2) :=
  ⟨by decide,
   C2_error_aborts_unit_but_not_run sampleArchiver sampleService unitBase failFirstTr
     emptyFS (LocalFS.mk [pendingNameFor unitBase fileRemote] [])
     [Ev.download fileRemote (pendingNameFor unitBase fileRemote)] "IOError"
     fileRemote [secondRemote] sampleToday [sampleUnit] sampleUnit
     (by decide) (List.mem_cons_self _ _)⟩

/-- C9 counterexample: for a service whose pattern lacks the date token the
warning is emitted and the service is still processed, but the remote
listing does not use a wildcard in place of the missing date segment — the
glob is the pattern verbatim, containing no wildcard character at all. -/
theorem C9_counterexample :
    Ev.warnNoDate noDateService.name ∈
      (archive_service sampleArchiver noDateService sampleToday []
        (fun _ => Tr.ok) emptyFS).2.1 ∧
    Ev.execFind noDateService.directory "access.log".toList ∈
      (archive_service sampleArchiver noDateService sampleToday []
        (fun _ => Tr.ok) emptyFS).2.1 ∧
    globFor noDateService = noDateService.pattern ∧
    containsWildcardChar (globFor noDateService) = false ∧
    containsSub dateWildcard (globFor noDateService) = false := by
  refine ⟨by decide, by decide, by decide, by decide, by decide⟩

/-- C9 amended: a service whose pattern lacks the date placeholder is warned
about but still processed, and the remote listing uses the pattern
unchanged as its glob (`str.replace` with an absent needle is the
identity) — no wildcard is substituted anywhere. -/
theorem C9_no_token_warn_but_processed (A : Archiver) (s : Service)
    (today : PyDate) (listing : List (List Char)) (tr : List Char → Tr)
    (fs : LocalFS) (h : containsSub dateToken s.pattern = false) :
    Ev.warnNoDate s.name ∈ (archive_service A s today listing tr fs).2.1 ∧
    Ev.execFind s.directory s.pattern ∈ (archive_service A s today listing tr fs).2.1 := by
  have hglob : globFor s = s.pattern :=
    replaceAll_of_not_contains dateToken dateWildcard s.pattern h
  have hwarn : warnEvs s = [Ev.warnNoDate s.name] := by
    unfold warnEvs
    rw [if_neg (by simp [h])]
  rcases archive_service_evs_shape A s today listing tr fs with ⟨tl, htl⟩
  rw [htl, hwarn, hglob]
  constructor <;> simp

theorem C9_witness :
    containsSub dateToken noDateService.pattern = false ∧
    (Ev.warnNoDate noDateService.name ∈
      (archive_service dryArchiver noDateService sampleToday []
        (fun _ => Tr.ok) emptyFS).2.1 ∧
    Ev.execFind noDateService.directory noDateService.pattern ∈
      (archive_service dryArchiver noDateService sampleToday []
        (fun _ => Tr.ok) emptyFS).2.1) :=
  ⟨by decide,
   C9_no_token_warn_but_processed dryArchiver noDateService sampleToday []
     (fun _ => Tr.ok) emptyFS (by decide)⟩

theorem sweepEvs_no_mutation (base_dir file_name : List Char) (fs : LocalFS) :
    ∀ e ∈ sweepEvs base_dir file_name fs, isTransferMutation e = false := by
  unfold sweepEvs
  split <;> simp [isTransferMutation]

theorem printEvs_no_mutation (A : Archiver) (s : Service)
    (file_name local_name : List Char) :
    ∀ e ∈ printEvs A s file_name local_name, isTransferMutation e = false := by
  unfold printEvs
  split <;> simp [isTransferMutation]

theorem eq_pending_of_removed_by_sweep (base_dir file_name f : List Char)
    (fs : LocalFS) (h1 : f ∈ fs.files)
    (h2 : f ∉ (sweep base_dir file_name fs).files) :
    f = pendingNameFor base_dir file_name := by
  unfold sweep at h2
  split at h2
  · by_contra hne
    exact h2 ((List.mem_erase_of_ne hne).mpr h1)
  · exact absurd h1 h2

theorem pendingNameFor_endsWith_dl (base_dir file_name : List Char) :
    endsWith dlExt (pendingNameFor base_dir file_name) = true :=
  endsWith_append dlExt (localNameFor base_dir file_name)

/-- With the dry-run flag, one file's processing only performs the stale
pending sweep: same state as `sweep`, no mutating event, no error. -/
theorem processFile_dryRun (A : Archiver) (s : Service) (base_dir : List Char)
    (tr : Tr) (fs : LocalFS) (file_name : List Char) (hd : A.dry_run = true) :
    (processFile A s base_dir tr fs file_name).1 = sweep base_dir file_name fs ∧
    (∀ e ∈ (processFile A s base_dir tr fs file_name).2.1,
      isTransferMutation e = false) ∧
    (processFile A s base_dir tr fs file_name).2.2 = none := by
  by_cases hl : localNameFor base_dir file_name ∈ (sweep base_dir file_name fs).files
  · rw [processFile_eq_skip A s base_dir tr fs file_name hl]
    refine ⟨rfl, ?_, rfl⟩
    intro e he
    rcases List.mem_append.mp he with h1 | h1
    · exact sweepEvs_no_mutation base_dir file_name fs e h1
    · rw [List.mem_singleton.mp h1]
      rfl
  · rw [processFile_eq_dry A s base_dir tr fs file_name hl hd]
    refine ⟨rfl, ?_, rfl⟩
    intro e he
    rcases List.mem_append.mp he with h1 | h1
    · exact sweepEvs_no_mutation base_dir file_name fs e h1
    · exact printEvs_no_mutation A s file_name _ e h1

/-- With the dry-run flag, the whole per-file loop removes at most stale
`.download` files, keeps directories, records no mutating event and raises
no error. -/
theorem processFiles_dryRun (A : Archiver) (s : Service) (base_dir : List Char)
    (tr : List Char → Tr) (hd : A.dry_run = true) :
    ∀ (files : List (List Char)) (fs : LocalFS),
      (∀ f, f ∈ (processFiles A s base_dir tr fs files).1.files → f ∈ fs.files) ∧
      (∀ f, f ∈ fs.files → f ∉ (processFiles A s base_dir tr fs files).1.files →
        endsWith dlExt f = true) ∧
      (processFiles A s base_dir tr fs files).1.dirs = fs.dirs ∧
      (∀ e ∈ (processFiles A s base_dir tr fs files).2.1,
        isTransferMutation e = false) ∧
      (processFiles A s base_dir tr fs files).2.2 = none := by
  intro files
  induction files with
  | nil =>
    intro fs
    exact ⟨fun f hf => hf, fun f hf hnf => absurd hf hnf, rfl, by simp [processFiles], rfl⟩
  | cons g gs ih =>
    intro fs
    rcases processFile_dryRun A s base_dir (tr g) fs g hd with ⟨hst, hevs, herr⟩
    rcases hpf : processFile A s base_dir (tr g) fs g with ⟨fsa, evsa, erra⟩
    rw [hpf] at hst hevs herr
    simp only at hst hevs herr
    subst herr
    subst hst
    rcases ih (sweep base_dir g fs) with ⟨ih1, ih2, ih3, ih4, ih5⟩
    rcases hpfs : processFiles A s base_dir tr (sweep base_dir g fs) gs with ⟨fsb, evsb, errb⟩
    rw [hpfs] at ih1 ih2 ih3 ih4 ih5
    simp only at ih1 ih2 ih3 ih4 ih5
    have hres : processFiles A s base_dir tr fs (g :: gs) = (fsb, evsa ++ evsb, errb) := by
      simp [processFiles, hpf, hpfs]
    rw [hres]
    refine ⟨?_, ?_, ?_, ?_, ih5⟩
    · intro f hf
      exact mem_of_mem_sweep base_dir g f fs (ih1 f hf)
    · intro f hf hnf
      by_cases hsw : f ∈ (sweep base_dir g fs).files
      · exact ih2 f hsw hnf
      · rw [eq_pending_of_removed_by_sweep base_dir g f fs hf hsw]
        exact pendingNameFor_endsWith_dl base_dir g
    · rw [ih3]
      exact sweep_dirs base_dir g fs
    · intro e he
      rcases List.mem_append.mp he with h1 | h1
      · exact hevs e h1
      · exact ih4 e h1

theorem retentionEvs_dryRun_no_mutation (A : Archiver) (hd : A.dry_run = true)
    (to_delete : List (List Char)) :
    ∀ e ∈ (to_delete.map (fun f =>
        (if A.verbose || A.dry_run then [Ev.retentionPrint f] else []) ++
        (if A.dry_run then [] else [Ev.retentionRemove f]))).flatten,
      isTransferMutation e = false := by
  intro e he
  simp only [List.mem_flatten, List.mem_map] at he
  rcases he with ⟨l, ⟨f, hf, rfl⟩, hel⟩
  rw [hd] at hel
  simp at hel
  rw [hel]
  rfl

/-- With the dry-run flag, the retention block prints but mutates nothing
and records no mutating event. -/
theorem retentionPass_dryRun (A : Archiver) (s : Service) (base_dir : List Char)
    (today : PyDate) (fs : LocalFS) (hd : A.dry_run = true) :
    (retentionPass A s base_dir today fs).1 = fs ∧
    (∀ e ∈ (retentionPass A s base_dir today fs).2.1,
      isTransferMutation e = false) := by
  cases hr : s.retention_period_days with
  | none =>
    have hres : retentionPass A s base_dir today fs = (fs, [], none) := by
      simp [retentionPass, hr]
    rw [hres]
    exact ⟨rfl, by simp⟩
  | some n =>
    by_cases hn : n = 0
    · have hres : retentionPass A s base_dir today fs = (fs, [], none) := by
        simp [retentionPass, hr, hn]
      rw [hres]
      exact ⟨rfl, by simp⟩
    · rcases hflt : filter_by_age (walkFiles base_dir fs) today
          (fun d => decide (d > (n : Int))) with e | files_to_delete
      · have hres : retentionPass A s base_dir today fs = (fs, [], some e) := by
          simp [retentionPass, hr, hn, hflt]
        rw [hres]
        exact ⟨rfl, by simp⟩
      · have hres : retentionPass A s base_dir today fs =
            (fs,
             (files_to_delete.map (fun f =>
               (if A.verbose || A.dry_run then [Ev.retentionPrint f] else []) ++
               (if A.dry_run then [] else [Ev.retentionRemove f]))).flatten,
             none) := by
          simp [retentionPass, hr, hn, hflt, hd]
        rw [hres]
        exact ⟨rfl, retentionEvs_dryRun_no_mutation A hd files_to_delete⟩

theorem startEvs_no_mutation (A : Archiver) (s : Service) (fs : LocalFS) :
    ∀ e ∈ ensureDirEvs (serviceBaseDir A s) fs ++ warnEvs s ++
        [Ev.execFind s.directory (globFor s)],
      isTransferMutation e = false := by
  intro e he
  rcases List.mem_append.mp he with h1 | h1
  · rcases List.mem_append.mp h1 with h2 | h2
    · unfold ensureDirEvs at h2
      split at h2 <;> simp at h2
      rw [h2]
      rfl
    · unfold warnEvs at h2
      split at h2 <;> simp at h2
      rw [h2]
      rfl
  · rw [List.mem_singleton.mp h1]
    rfl

theorem ensureDirState_files (base_dir : List Char) (fs : LocalFS) :
    (ensureDirState base_dir fs).files = fs.files := by
  unfold ensureDirState
  split <;> rfl

/-- C4 counterexample: with the dry-run flag set, processing a service still
mutates the filesystem: the missing base directory is created (lines 86-87
are unguarded) and a stale pending file is deleted (lines 131-132 are
unguarded), contradicting "performs no filesystem mutations: no directory
is created, no pending file is removed". -/
theorem C4_counterexample :
    dryArchiver.dry_run = true ∧
    pendingNameFor unitBase fileRemote ∈ fsPendingOnly.files ∧
    unitBase ∉ fsPendingOnly.dirs ∧
    pendingNameFor unitBase fileRemote ∉
      (archive_service dryArchiver sampleService sampleToday [fileRemote]
        (fun _ => Tr.ok) fsPendingOnly).1.files ∧
    unitBase ∈
      (archive_service dryArchiver sampleService sampleToday [fileRemote]
        (fun _ => Tr.ok) fsPendingOnly).1.dirs := by
  refine ⟨rfl, by decide, by decide, by decide, by decide⟩

/-- C4 amended: with the dry-run flag set, processing a service performs
listing and filtering and prints intended actions, and performs no transfer
writes, renames, remote removals or retention deletions — no new local file
ever appears and the only files that can disappear are stale `.download`
pending files; the base directory may still be created and stale pending
files are still swept (those two mutations are not dry-run guarded). -/
theorem C4_dry_run_no_transfers (A : Archiver) (s : Service) (today : PyDate)
    (listing : List (List Char)) (tr : List Char → Tr) (fs : LocalFS)
    (hd : A.dry_run = true) :
    (∀ f, f ∈ (archive_service A s today listing tr fs).1.files → f ∈ fs.files) ∧
    (∀ f, f ∈ fs.files → f ∉ (archive_service A s today listing tr fs).1.files →
      endsWith dlExt f = true) ∧
    (∀ e ∈ (archive_service A s today listing tr fs).2.1,
      isTransferMutation e = false) := by
  have hfiles1 := ensureDirState_files (serviceBaseDir A s) fs
  rcases hflt : filter_by_age (sortOrd strLeB (listing.map pyStrip)) today
      (fun d => decide (d > (s.days_to_keep_on_remote : Int))) with e | files
  · have hres : archive_service A s today listing tr fs =
        (ensureDirState (serviceBaseDir A s) fs,
         ensureDirEvs (serviceBaseDir A s) fs ++ warnEvs s ++
           [Ev.execFind s.directory (globFor s)],
         some e) := by
      simp [archive_service, hflt]
    rw [hres]
    refine ⟨?_, ?_, startEvs_no_mutation A s fs⟩
    · intro f hf
      rw [hfiles1] at hf
      exact hf
    · intro f hf hnf
      rw [hfiles1] at hnf
      exact absurd hf hnf
  · rcases processFiles_dryRun A s (serviceBaseDir A s) tr hd files
        (ensureDirState (serviceBaseDir A s) fs) with ⟨p1, p2, p3, p4, p5⟩
    rcases hpfs : processFiles A s (serviceBaseDir A s) tr
        (ensureDirState (serviceBaseDir A s) fs) files with ⟨fsb, evsb, errb⟩
    rw [hpfs] at p1 p2 p3 p4 p5
    simp only at p1 p2 p3 p4 p5
    subst p5
    rcases retentionPass_dryRun A s (serviceBaseDir A s) today fsb hd with ⟨r1, r2⟩
    rcases hrp : retentionPass A s (serviceBaseDir A s) today fsb with ⟨fsc, evsc, errc⟩
    rw [hrp] at r1 r2
    simp only at r1 r2
    have hres : archive_service A s today listing tr fs =
        (fsc,
         ensureDirEvs (serviceBaseDir A s) fs ++ warnEvs s ++
           [Ev.execFind s.directory (globFor s)] ++ evsb ++ evsc,
         errc) := by
      simp [archive_service, hflt, hpfs, hrp]
    rw [hres]
    refine ⟨?_, ?_, ?_⟩
    · intro f hf
      rw [hfiles1] at p1
      exact p1 f (r1 ▸ hf)
    · intro f hf hnf
      rw [hfiles1] at p2
      exact p2 f hf (fun hin => hnf (r1 ▸ hin))
    · intro e2 he
      rcases List.mem_append.mp he with h1 | h1
      · rcases List.mem_append.mp h1 with h2 | h2
        · exact startEvs_no_mutation A s fs e2 h2
        · exact p4 e2 h2
      · exact r2 e2 h1

theorem C4_witness :
    dryArchiver.dry_run = true ∧
    ((∀ f, f ∈ (archive_service dryArchiver sampleService sampleToday [fileRemote]
        (fun _ => Tr.ok) fsPendingOnly).1.files → f ∈ fsPendingOnly.files) ∧
    (∀ f, f ∈ fsPendingOnly.files →
      f ∉ (archive_service dryArchiver sampleService sampleToday [fileRemote]
        (fun _ => Tr.ok) fsPendingOnly).1.files →
      endsWith dlExt f = true) ∧
    (∀ e ∈ (archive_service dryArchiver sampleService sampleToday [fileRemote]
        (fun _ => Tr.ok) fsPendingOnly).2.1,
      isTransferMutation e = false)) :=
  ⟨rfl,
   C4_dry_run_no_transfers dryArchiver sampleService sampleToday [fileRemote]
     (fun _ => Tr.ok) fsPendingOnly rfl⟩

end LogArchiver

